import Mathlib

/-!
Verification of the parliament-analysis ingestion scripts.

This file gives a shallow embedding, in Lean 4, of the data model and the
operations of the repository's ingestion scripts:

* `src/fetch-parliamentdata.py` — the Swedish Riksdag ingester
  (`populate_database`, `fetch_speech_text_from_url`): list entries are
  processed one by one against a SQLite store with tables
  `members (iid PRIMARY KEY, name, party)` and
  `speeches (anforande_id PRIMARY KEY, ..., anforande_url_xml UNIQUE)`.
  The store is modelled as lists of rows; `INSERT OR IGNORE`, the
  existence check and `INSERT` (with `IntegrityError` on a key collision)
  are modelled by explicit list operations.  The network fetch of a
  speech text is an oracle parameter `fetchText : String -> String`,
  exactly as the Python function always returns a string (error messages
  included) and never raises.
* `src/fr/fr_build_db.py` — the French database builder.
* `src/fr/fr_deputy_speeches.py` — the per-deputy aggregator
  (`write_deputy_xml` sorting, `slugify`).
* `src/uk/uk_member_speeches.py` — the streaming Hansard splitter.
* `src/uk/uk_build_db.py` — the UK database builder.

Python string helpers are modelled on the character lists underlying
Lean strings: `str.isalnum` and `str.lower` by `pyIsAlnum` and
`pyLower`, which agree with Python's Unicode-aware behaviour on the
ASCII and Latin-1 Supplement ranges (covering the Swedish and French
diacritic letters the sources carry), and `str.strip` by the
whitespace-trimming `pyStrip`.
-/

/-! ### Python string helpers used by `populate_database` -/

/-- Model of the Python `c.isalnum()` character test on the ASCII and
Latin-1 Supplement ranges (code points up to `0xFF`), which cover the
Swedish and French letters the ingested names carry.  Python's
`str.isalnum` is true there on exactly: the ASCII letters and digits,
the Latin-1 letters `0xC0`-`0xFF` minus the multiplication and
division signs (`0xD7`, `0xF7`), and the Latin-1 alphanumerics
`ª ² ³ µ ¹ º ¼ ½ ¾`.  In particular diacritic letters such as
`å ä ö é` count as alphanumeric and are kept, as in Python. -/
def pyIsAlnum (c : Char) : Bool :=
  c.isAlphanum ||
    (192 ≤ c.toNat && c.toNat ≤ 255 && !(c.toNat = 215) &&
      !(c.toNat = 247)) ||
    (c.toNat = 170 || c.toNat = 178 || c.toNat = 179 || c.toNat = 181 ||
      c.toNat = 185 || c.toNat = 186 || c.toNat = 188 || c.toNat = 189 ||
      c.toNat = 190)

/-- Model of `''.join(c for c in s if c.isalnum() or c == ' ')`. -/
def pyFilterAlnumSpace (s : String) : String :=
  ⟨s.data.filter (fun c => pyIsAlnum c || c = ' ')⟩

/-- Model of `s.replace(' ', '_')`. -/
def pyUnderscoreSpaces (s : String) : String :=
  ⟨s.data.map (fun c => if c = ' ' then '_' else c)⟩

/-- Model of the Python `c.lower()` character map on the same range:
the ASCII letters `A`-`Z` and the Latin-1 uppercase letters `À`-`Þ`
(except `×`) map to their lowercase forms 32 code points higher
(`Å` maps to `å`); every other character is unchanged. -/
def pyCharLower (c : Char) : Char :=
  if (65 ≤ c.toNat && c.toNat ≤ 90) ||
      (192 ≤ c.toNat && c.toNat ≤ 222 && !(c.toNat = 215)) then
    Char.ofNat (c.toNat + 32)
  else c

/-- Model of `s.lower()` on the ASCII and Latin-1 ranges. -/
def pyLower (s : String) : String := ⟨s.data.map pyCharLower⟩

/-- Model of `s.strip()`: drop leading and trailing whitespace. -/
def pyStrip (s : String) : String :=
  ⟨((s.data.dropWhile Char.isWhitespace).reverse.dropWhile
      Char.isWhitespace).reverse⟩

/-! ### Data model of `fetch-parliamentdata.py` -/

/-- One `anforande` element of the remote list document, as read by
`populate_database` via `get_text_from_element` (missing elements are
already collapsed to the empty string / default). -/
structure Entry where
  iid : String
  talare : String
  parti : String
  anforande_id : String
  anforande_url_xml : String
  dok_id : String
  dok_datum : String
  avsnittsrubrik : String
  dok_titel : String
deriving DecidableEq

/-- A row of the `members` table (`iid PRIMARY KEY, name, party`). -/
structure MemberRow where
  iid : String
  name : String
  party : String
deriving DecidableEq

/-- A row of the `speeches` table (`anforande_id PRIMARY KEY`,
`anforande_url_xml UNIQUE`). -/
structure SpeechRow where
  anforande_id : String
  iid : String
  dok_id : String
  dok_datum : String
  avsnittsrubrik : String
  dok_titel : String
  anforandetext : String
  anforande_url_xml : String
deriving DecidableEq

/-- The SQLite store of `fetch-parliamentdata.py`: the two tables, as
ordered lists of rows (insertion order). -/
structure DB where
  members : List MemberRow
  speeches : List SpeechRow
deriving DecidableEq

def dbEmpty : DB := ⟨[], []⟩

/-- Model of the generated member id of `populate_database` lines
171-176: `s_talare = ''.join(c for c in talare if c.isalnum() or
c == ' ').replace(' ', '_').lower()`. -/
def sTalare (talare : String) : String :=
  pyLower (pyUnderscoreSpaces (pyFilterAlnumSpace talare))

/-- Model of `s_parti = ''.join(c for c in parti if
c.isalnum()).lower() if parti else "okantparti"`. -/
def sParti (parti : String) : String :=
  if parti = "" then "okantparti"
  else pyLower ⟨parti.data.filter pyIsAlnum⟩

/-- Model of the synthesized id `f"gen_{s_talare}_{s_parti}"[:60]`. -/
def genIid (talare parti : String) : String :=
  ⟨("gen_" ++ sTalare talare ++ "_" ++ sParti parti).data.take 60⟩

/-- Model of the id decision of `populate_database`: `db_iid =
iid_from_xml; if not db_iid: db_iid = <generated>`. -/
def resolveIid (e : Entry) : String :=
  if e.iid = "" then genIid e.talare e.parti else e.iid

/-- Model of the core-information guard of `populate_database` line 161:
an entry is skipped unless `talare`, `anforande_id` and
`anforande_url_xml` are all non-empty. -/
def validEntry (e : Entry) : Bool :=
  !(e.talare = "") && !(e.anforande_id = "") && !(e.anforande_url_xml = "")

/-- Model of `SELECT 1 FROM members WHERE iid = ?` (implicit in the
`INSERT OR IGNORE` of line 181). -/
def memberExists (db : DB) (i : String) : Bool :=
  db.members.any (fun m => m.iid = i)

/-- Model of `INSERT OR IGNORE INTO members (iid, name, party)`:
append the row unless a row with that primary key already exists. -/
def insertOrIgnoreMember (db : DB) (i n p : String) : DB :=
  if memberExists db i then db
  else { db with members := db.members ++ [⟨i, n, p⟩] }

/-- Model of `SELECT 1 FROM speeches WHERE anforande_id = ?`
(line 191). -/
def speechExists (db : DB) (aid : String) : Bool :=
  db.speeches.any (fun r => r.anforande_id = aid)

/-- A plain `INSERT INTO speeches` raises `IntegrityError` exactly when
the `anforande_id` primary key or the `anforande_url_xml UNIQUE`
constraint collides with an existing row. -/
def speechBlocked (db : DB) (aid url : String) : Bool :=
  db.speeches.any (fun r => r.anforande_id = aid || r.anforande_url_xml = url)

/-- Model of the `INSERT INTO speeches` of lines 206-217: on an
`IntegrityError` the row is not added (the exception is caught and the
loop continues); otherwise the row is appended and committed. -/
def insertSpeech (db : DB) (row : SpeechRow) : DB × Bool :=
  if speechBlocked db row.anforande_id row.anforande_url_xml then (db, false)
  else ({ db with speeches := db.speeches ++ [row] }, true)

/-- The `speeches` row built from a list entry, the resolved member id
and the fetched text (line 206-209). -/
def speechRowOf (e : Entry) (dbIid text : String) : SpeechRow :=
  ⟨e.anforande_id, dbIid, e.dok_id, e.dok_datum, e.avsnittsrubrik,
    e.dok_titel, text, e.anforande_url_xml⟩

/-- The visible effects of processing one list entry in the main loop of
`populate_database`: the new store, the contributions to the three
printed counters, and the list of detail URLs fetched for this entry. -/
structure EntryOutcome where
  db : DB
  processed : Nat
  added : Nat
  membersAdded : Nat
  fetched : List String

/-- Model of one iteration of the `for i, el in enumerate(...)` loop of
`populate_database` (lines 141-219): guard on core information, resolve
the member id, `INSERT OR IGNORE` the member, check speech existence
(skipping the text fetch when the speech is already stored), otherwise
fetch the text via the oracle and insert the speech row. -/
def processEntry (fetchText : String → String) (db : DB) (e : Entry) :
    EntryOutcome :=
  if validEntry e then
    let i := resolveIid e
    let mAdd : Nat := if memberExists db i then 0 else 1
    let db1 := insertOrIgnoreMember db i e.talare e.parti
    if speechExists db1 e.anforande_id then
      ⟨db1, 1, 0, mAdd, []⟩
    else
      let text := fetchText e.anforande_url_xml
      let ins := insertSpeech db1 (speechRowOf e i text)
      ⟨ins.1, 1, if ins.2 then 1 else 0, mAdd, [e.anforande_url_xml]⟩
  else ⟨db, 0, 0, 0, []⟩

/-- The run summary of `populate_database`: the final store and the
three counters printed at lines 221-224, plus the fetch trace. -/
structure RunResult where
  db : DB
  processed : Nat
  added : Nat
  membersAdded : Nat
  fetched : List String

/-- Model of the whole entry loop of `populate_database` over the list
of entries extracted from the list document. -/
def populateFrom (fetchText : String → String) (db : DB) :
    List Entry → RunResult
  | [] => ⟨db, 0, 0, 0, []⟩
  | e :: es =>
    let o := processEntry fetchText db e
    let r := populateFrom fetchText o.db es
    ⟨r.db, o.processed + r.processed, o.added + r.added,
      o.membersAdded + r.membersAdded, o.fetched ++ r.fetched⟩

example :
    genIid "A. Smith" "X" = "gen_a_smith_x" := by decide

example :
    genIid "TALMANNEN" "" = "gen_talmannen_okantparti" := by decide

/-! ### Store evolution lemmas for `populate_database` -/

/-- The store `d2` extends the store `d1`: every table of `d2` is the
corresponding table of `d1` with zero or more rows appended.  This is
the append-only relation: existing rows keep their position and their
contents. -/
def dbExtends (d1 d2 : DB) : Prop :=
  (∃ ms, d2.members = d1.members ++ ms) ∧ (∃ ss, d2.speeches = d1.speeches ++ ss)

theorem dbExtends_refl (d : DB) : dbExtends d d :=
  ⟨⟨[], by simp⟩, ⟨[], by simp⟩⟩

theorem dbExtends_trans {a b c : DB} (h1 : dbExtends a b) (h2 : dbExtends b c) :
    dbExtends a c := by
  obtain ⟨⟨ms1, hm1⟩, ⟨ss1, hs1⟩⟩ := h1
  obtain ⟨⟨ms2, hm2⟩, ⟨ss2, hs2⟩⟩ := h2
  exact ⟨⟨ms1 ++ ms2, by simp [hm2, hm1]⟩, ⟨ss1 ++ ss2, by simp [hs2, hs1]⟩⟩

theorem memberExists_mono {d1 d2 : DB} (h : dbExtends d1 d2) {i : String}
    (hm : memberExists d1 i = true) : memberExists d2 i = true := by
  obtain ⟨⟨ms, hms⟩, _⟩ := h
  simp only [memberExists, hms, List.any_append, Bool.or_eq_true]
  exact Or.inl hm

theorem speechExists_mono {d1 d2 : DB} (h : dbExtends d1 d2) {aid : String}
    (hs : speechExists d1 aid = true) : speechExists d2 aid = true := by
  obtain ⟨_, ⟨ss, hss⟩⟩ := h
  simp only [speechExists, hss, List.any_append, Bool.or_eq_true]
  exact Or.inl hs

theorem speechBlocked_mono {d1 d2 : DB} (h : dbExtends d1 d2) {aid url : String}
    (hb : speechBlocked d1 aid url = true) : speechBlocked d2 aid url = true := by
  obtain ⟨_, ⟨ss, hss⟩⟩ := h
  simp only [speechBlocked, hss, List.any_append, Bool.or_eq_true]
  exact Or.inl hb

theorem insertOrIgnoreMember_extends (db : DB) (i n p : String) :
    dbExtends db (insertOrIgnoreMember db i n p) := by
  unfold insertOrIgnoreMember
  by_cases h : memberExists db i = true
  · simp [h, dbExtends_refl]
  · simp only [h, if_false, Bool.not_eq_true] at *
    exact ⟨⟨[⟨i, n, p⟩], by simp [h]⟩, ⟨[], by simp [h]⟩⟩

theorem insertOrIgnoreMember_speeches (db : DB) (i n p : String) :
    (insertOrIgnoreMember db i n p).speeches = db.speeches := by
  unfold insertOrIgnoreMember
  by_cases h : memberExists db i <;> simp [h]

theorem insertOrIgnoreMember_memberExists (db : DB) (i n p : String) :
    memberExists (insertOrIgnoreMember db i n p) i = true := by
  by_cases h : memberExists db i = true
  · rw [insertOrIgnoreMember, if_pos h]
    exact h
  · rw [insertOrIgnoreMember, if_neg h]
    simp [memberExists]

theorem insertSpeech_extends (db : DB) (row : SpeechRow) :
    dbExtends db (insertSpeech db row).1 := by
  unfold insertSpeech
  by_cases h : speechBlocked db row.anforande_id row.anforande_url_xml
  · simp [h, dbExtends_refl]
  · exact ⟨⟨[], by simp [h]⟩, ⟨[row], by simp [h]⟩⟩

theorem insertSpeech_members (db : DB) (row : SpeechRow) :
    (insertSpeech db row).1.members = db.members := by
  unfold insertSpeech
  by_cases h : speechBlocked db row.anforande_id row.anforande_url_xml <;> simp [h]

theorem processEntry_extends (f : String → String) (db : DB) (e : Entry) :
    dbExtends db (processEntry f db e).db := by
  unfold processEntry
  by_cases hv : validEntry e
  · simp only [hv, if_true]
    by_cases hx : speechExists (insertOrIgnoreMember db (resolveIid e) e.talare e.parti) e.anforande_id
    · simpa [hx] using insertOrIgnoreMember_extends db (resolveIid e) e.talare e.parti
    · simp only [hx, if_false, Bool.false_eq_true]
      exact dbExtends_trans (insertOrIgnoreMember_extends db (resolveIid e) e.talare e.parti)
        (insertSpeech_extends _ _)
  · simp [hv, dbExtends_refl]

theorem populateFrom_extends (f : String → String) (db : DB) (es : List Entry) :
    dbExtends db (populateFrom f db es).db := by
  induction es generalizing db with
  | nil => exact dbExtends_refl db
  | cons e es ih =>
    exact dbExtends_trans (processEntry_extends f db e) (ih (processEntry f db e).db)

/-! ### The settled invariant: after a run, every valid entry of the
processed list is blocked from being inserted again -/

theorem speechExists_blocked {db : DB} {aid url : String}
    (h : speechExists db aid = true) : speechBlocked db aid url = true := by
  simp only [speechExists, List.any_eq_true] at h
  obtain ⟨r, hr, hid⟩ := h
  simp only [speechBlocked, List.any_eq_true]
  exact ⟨r, hr, by simp [hid]⟩

/-- An entry is settled relative to a store when (if it carried the core
information) its member row is present and a fresh insert of its speech
row would hit a key collision.  After a run over a list, every entry of
that list is settled, which is what makes a re-run a no-op. -/
def entrySettled (db : DB) (e : Entry) : Prop :=
  validEntry e = true →
    memberExists db (resolveIid e) = true ∧
    speechBlocked db e.anforande_id e.anforande_url_xml = true

theorem entrySettled_mono {d1 d2 : DB} {e : Entry} (h : entrySettled d1 e)
    (hext : dbExtends d1 d2) : entrySettled d2 e := fun hv =>
  ⟨memberExists_mono hext (h hv).1, speechBlocked_mono hext (h hv).2⟩

theorem insertSpeech_blocked_after (db : DB) (row : SpeechRow) :
    speechBlocked (insertSpeech db row).1 row.anforande_id
      row.anforande_url_xml = true := by
  unfold insertSpeech
  by_cases hb : speechBlocked db row.anforande_id row.anforande_url_xml = true
  · rw [if_pos hb]
    exact hb
  · rw [if_neg hb]
    simp [speechBlocked]

theorem memberExists_insertSpeech (db : DB) (row : SpeechRow) (i : String) :
    memberExists (insertSpeech db row).1 i = memberExists db i := by
  unfold memberExists
  rw [insertSpeech_members]

theorem processEntry_settles (f : String → String) (db : DB) (e : Entry) :
    entrySettled (processEntry f db e).db e := by
  intro hv
  unfold processEntry
  simp only [hv, if_true]
  by_cases hx : speechExists (insertOrIgnoreMember db (resolveIid e) e.talare e.parti)
      e.anforande_id = true
  · simp only [hx, if_true]
    exact ⟨insertOrIgnoreMember_memberExists db (resolveIid e) e.talare e.parti,
      speechExists_blocked hx⟩
  · simp only [hx, if_false, Bool.false_eq_true]
    refine ⟨?_, ?_⟩
    · rw [memberExists_insertSpeech]
      exact insertOrIgnoreMember_memberExists db (resolveIid e) e.talare e.parti
    · have hb := insertSpeech_blocked_after
        (insertOrIgnoreMember db (resolveIid e) e.talare e.parti)
        (speechRowOf e (resolveIid e) (f e.anforande_url_xml))
      simpa [speechRowOf] using hb

theorem populateFrom_settles (f : String → String) (db : DB) (es : List Entry) :
    ∀ e ∈ es, entrySettled (populateFrom f db es).db e := by
  induction es generalizing db with
  | nil =>
    intro e he
    cases he
  | cons a es ih =>
    intro e he
    have hdb : (populateFrom f db (a :: es)).db =
        (populateFrom f (processEntry f db a).db es).db := rfl
    rw [hdb]
    rcases List.mem_cons.mp he with rfl | he2
    · exact entrySettled_mono (processEntry_settles f db e)
        (populateFrom_extends f (processEntry f db e).db es)
    · exact ih (processEntry f db a).db e he2

theorem processEntry_of_settled (f : String → String) {db : DB} {e : Entry}
    (h : entrySettled db e) :
    (processEntry f db e).db = db ∧ (processEntry f db e).added = 0 ∧
      (processEntry f db e).membersAdded = 0 := by
  unfold processEntry
  by_cases hv : validEntry e = true
  · obtain ⟨hm, hb⟩ := h hv
    have hdb1 : insertOrIgnoreMember db (resolveIid e) e.talare e.parti = db := by
      rw [insertOrIgnoreMember, if_pos hm]
    by_cases hx : speechExists db e.anforande_id = true
    · simp only [hv, if_true, hm, hdb1, hx]
      refine ⟨?_, ?_, ?_⟩ <;> trivial
    · have hins : insertSpeech db
          (speechRowOf e (resolveIid e) (f e.anforande_url_xml)) = (db, false) := by
        unfold insertSpeech speechRowOf
        rw [if_pos hb]
      simp only [hv, if_true, hm, hdb1, hx, if_false, Bool.false_eq_true, hins]
      refine ⟨?_, ?_, ?_⟩ <;> trivial
  · simp only [hv, if_false, Bool.false_eq_true]
    refine ⟨?_, ?_, ?_⟩ <;> trivial

theorem populateFrom_of_settled (f : String → String) {db : DB} {es : List Entry}
    (h : ∀ e ∈ es, entrySettled db e) :
    (populateFrom f db es).db = db ∧ (populateFrom f db es).added = 0 ∧
      (populateFrom f db es).membersAdded = 0 := by
  induction es with
  | nil => exact ⟨rfl, rfl, rfl⟩
  | cons a es ih =>
    obtain ⟨hdb, hadd, hmem⟩ :=
      processEntry_of_settled f (h a (List.mem_cons_self a es))
    have ih2 := ih (fun e he => h e (List.mem_cons_of_mem a he))
    refine ⟨?_, ?_, ?_⟩
    · show (populateFrom f (processEntry f db a).db es).db = db
      rw [hdb]
      exact ih2.1
    · show (processEntry f db a).added +
        (populateFrom f (processEntry f db a).db es).added = 0
      rw [hadd, hdb, ih2.2.1]
    · show (processEntry f db a).membersAdded +
        (populateFrom f (processEntry f db a).db es).membersAdded = 0
      rw [hmem, hdb, ih2.2.2]

theorem speechExists_insertMember (db : DB) (i n p aid : String) :
    speechExists (insertOrIgnoreMember db i n p) aid = speechExists db aid := by
  unfold speechExists
  rw [insertOrIgnoreMember_speeches]

/-! ### Natural-key uniqueness is preserved by the run -/

theorem insertSpeech_nodup (db : DB) (row : SpeechRow)
    (h : (db.speeches.map SpeechRow.anforande_id).Nodup) :
    (((insertSpeech db row).1).speeches.map SpeechRow.anforande_id).Nodup := by
  unfold insertSpeech
  by_cases hb : speechBlocked db row.anforande_id row.anforande_url_xml = true
  · rw [if_pos hb]
    exact h
  · rw [if_neg hb]
    have hni : row.anforande_id ∉ db.speeches.map SpeechRow.anforande_id := by
      intro hmem
      apply hb
      simp only [List.mem_map] at hmem
      obtain ⟨r, hr, hid⟩ := hmem
      simp only [speechBlocked, List.any_eq_true]
      exact ⟨r, hr, by simp [hid]⟩
    simp only [List.map_append, List.map_cons, List.map_nil]
    simp [List.nodup_append, h, hni]

theorem processEntry_nodup (f : String → String) (db : DB) (e : Entry)
    (h : (db.speeches.map SpeechRow.anforande_id).Nodup) :
    ((processEntry f db e).db.speeches.map SpeechRow.anforande_id).Nodup := by
  unfold processEntry
  by_cases hv : validEntry e = true
  · simp only [hv, if_true]
    by_cases hx : speechExists (insertOrIgnoreMember db (resolveIid e) e.talare e.parti)
        e.anforande_id = true
    · simpa [hx, insertOrIgnoreMember_speeches] using h
    · simp only [hx, if_false, Bool.false_eq_true]
      apply insertSpeech_nodup
      rw [insertOrIgnoreMember_speeches]
      exact h
  · simpa [hv] using h

theorem populateFrom_nodup (f : String → String) (db : DB) (es : List Entry)
    (h : (db.speeches.map SpeechRow.anforande_id).Nodup) :
    ((populateFrom f db es).db.speeches.map SpeechRow.anforande_id).Nodup := by
  induction es generalizing db with
  | nil => exact h
  | cons a es ih => exact ih (processEntry f db a).db (processEntry_nodup f db a h)

/-! ### Claim C1 -/

/-- C1: Idempotence of ingestion.  For a fixed source window (a fixed
entry list and text oracle), running `populate_database` a second time
against the store produced by the first run leaves the store content
unchanged, adds zero speech rows and zero member rows, and hence reports
0 added in the run summary. -/
theorem populate_database_idempotent (f : String → String) (db : DB)
    (es : List Entry) :
    (populateFrom f (populateFrom f db es).db es).db = (populateFrom f db es).db ∧
    (populateFrom f (populateFrom f db es).db es).added = 0 ∧
    (populateFrom f (populateFrom f db es).db es).membersAdded = 0 :=
  populateFrom_of_settled f (populateFrom_settles f db es)

/-! ### Claim C2 -/

/-- The two Scenario A list entries: speaker `A. Smith`, empty natural
id, party `X`, with distinct speech ids and urls. -/
def entrySmithA : Entry := ⟨"", "A. Smith", "X", "as1", "uA1", "", "", "", ""⟩

def entrySmithB : Entry := ⟨"", "A. Smith", "X", "as2", "uA2", "", "", "", ""⟩

/-- C2: Determinism of identity resolution.  For every pair of entries
with an empty natural id and the same (name, party), the synthesized
speaker id is identical (it is a pure function of name and party, so it
also agrees across independent runs), and in Scenario A the two
`A. Smith` entries produce exactly one row in the members table. -/
theorem speaker_id_deterministic :
    (∀ e1 e2 : Entry, e1.iid = "" → e2.iid = "" → e1.talare = e2.talare →
      e1.parti = e2.parti → resolveIid e1 = resolveIid e2) ∧
    (∀ f : String → String,
      (populateFrom f dbEmpty [entrySmithA, entrySmithB]).db.members.map
        MemberRow.iid = [genIid "A. Smith" "X"]) := by
  constructor
  · intro e1 e2 h1 h2 ht hp
    simp [resolveIid, h1, h2, ht, hp]
  · intro f
    rfl

theorem speaker_id_deterministic_witness :
    resolveIid entrySmithA = resolveIid entrySmithB :=
  speaker_id_deterministic.1 entrySmithA entrySmithB rfl rfl rfl rfl

/-! ### Claim C3 -/

/-- C3: The store is append-only.  A run of `populate_database` only
appends rows (every pre-existing row of both tables keeps its position
and its contents); the member upsert is insert-if-absent and leaves the
store untouched when the member id already exists (name and party of an
existing id are never changed); and a speech insert that hits an
existing key is a no-op treated as already-present rather than an
error. -/
theorem store_append_only (f : String → String) (db : DB) (es : List Entry) :
    dbExtends db (populateFrom f db es).db ∧
    (∀ i n p, memberExists db i = true → insertOrIgnoreMember db i n p = db) ∧
    (∀ row : SpeechRow,
      speechBlocked db row.anforande_id row.anforande_url_xml = true →
      insertSpeech db row = (db, false)) := by
  refine ⟨populateFrom_extends f db es, ?_, ?_⟩
  · intro i n p h
    rw [insertOrIgnoreMember, if_pos h]
  · intro row h
    rw [insertSpeech, if_pos h]

def dbPre : DB := ⟨[⟨"m1", "Nina", "P"⟩], [⟨"a1", "m1", "", "", "", "", "t", "u1"⟩]⟩

theorem store_append_only_witness :
    dbExtends dbPre (populateFrom (fun _ => "t") dbPre []).db ∧
    insertOrIgnoreMember dbPre "m1" "Other" "Q" = dbPre ∧
    insertSpeech dbPre ⟨"a1", "m2", "", "", "", "", "s", "u9"⟩ = (dbPre, false) := by
  have h := store_append_only (fun _ => "t") dbPre []
  exact ⟨h.1, h.2.1 "m1" "Other" "Q" (by decide),
    h.2.2 ⟨"a1", "m2", "", "", "", "", "s", "u9"⟩ (by decide)⟩

/-! ### Claim C4 -/

/-- C4: Existence is checked before any costly fetch.  If an entry's
natural key `anforande_id` is already present in the speeches relation
at the start of the run, then when the loop reaches that entry (after
any earlier portion `es1` of the list) it performs no detail-text fetch
for it, counts nothing as added, and inserts no speech row for it; and
the primary key stays duplicate-free across the whole run, so a speech
record is persisted at most once. -/
theorem existence_checked_before_fetch (f : String → String) (db : DB)
    (e : Entry) (es1 es2 : List Entry)
    (hv : validEntry e = true)
    (hx : speechExists db e.anforande_id = true) :
    (processEntry f (populateFrom f db es1).db e).fetched = [] ∧
    (processEntry f (populateFrom f db es1).db e).added = 0 ∧
    (processEntry f (populateFrom f db es1).db e).db.speeches =
      (populateFrom f db es1).db.speeches ∧
    ((db.speeches.map SpeechRow.anforande_id).Nodup →
      ((populateFrom f db (es1 ++ e :: es2)).db.speeches.map
        SpeechRow.anforande_id).Nodup) := by
  have hx1 : speechExists (populateFrom f db es1).db e.anforande_id = true :=
    speechExists_mono (populateFrom_extends f db es1) hx
  have hx2 : speechExists
      (insertOrIgnoreMember (populateFrom f db es1).db (resolveIid e)
        e.talare e.parti) e.anforande_id = true := by
    rw [speechExists_insertMember]
    exact hx1
  refine ⟨?_, ?_, ?_, fun hn => populateFrom_nodup f db (es1 ++ e :: es2) hn⟩
  all_goals
    unfold processEntry
    simp only [hv, if_true, hx2, insertOrIgnoreMember_speeches]

def dbSeen : DB := ⟨[], [⟨"a1", "m1", "", "", "", "", "old text", "u0"⟩]⟩

def entrySeen : Entry := ⟨"i9", "Anna Berg", "S", "a1", "u1", "", "", "", ""⟩

theorem existence_checked_before_fetch_witness :
    (processEntry (fun _ => "txt")
      (populateFrom (fun _ => "txt") dbSeen []).db entrySeen).fetched = [] :=
  (existence_checked_before_fetch (fun _ => "txt") dbSeen entrySeen [] []
    (by decide) (by decide)).1

/-! ### Claim C7 -/

def entryDotSmith : Entry := ⟨"", "A.Smith", "X", "ad1", "uD1", "", "", "", ""⟩

def entrySpaceSmith : Entry := ⟨"", "A Smith", "X", "ad2", "uD2", "", "", "", ""⟩

/-- C7 counterexample.  The claim says the synthesized id is derived by
"collapsing non-alphanumerics to a separator", under which the names
`A.Smith` and `A Smith` would both normalize to `a_smith` and derive
the identical id.  The code instead deletes non-alphanumeric
non-space characters and maps only spaces to the separator, so the two
names derive different ids: the dot leaves no separator behind. -/
theorem resolver_normalization_counterexample :
    resolveIid entryDotSmith = "gen_asmith_x" ∧
    resolveIid entrySpaceSmith = "gen_a_smith_x" ∧
    ¬ resolveIid entryDotSmith = resolveIid entrySpaceSmith := by
  refine ⟨?_, ?_, ?_⟩ <;> decide

/-- C7 amended: if the natural id is present and non-empty it becomes
the speaker id verbatim; otherwise the id is `gen_` + the name with
non-alphanumeric non-space characters removed (diacritic letters are
alphanumeric, so they are kept, not stripped) and spaces replaced by
underscores, lower-cased, + `_` + the party filtered to alphanumerics
and lower-cased (`okantparti` when the party is empty), and the
generated id is truncated to at most 60 characters.  The last conjunct
exhibits the diacritics: `Åsa Holm` keeps its `å`, lower-cased. -/
theorem resolver_contract (e : Entry) (n p : String) :
    (¬ e.iid = "" → resolveIid e = e.iid) ∧
    (e.iid = "" → resolveIid e = genIid e.talare e.parti) ∧
    (genIid n p).length ≤ 60 ∧
    genIid "Åsa Holm" "C" = "gen_åsa_holm_c" := by
  refine ⟨?_, ?_, ?_, ?_⟩
  · intro h
    rw [resolveIid, if_neg h]
  · intro h
    rw [resolveIid, if_pos h]
  · have h : (genIid n p).length =
        (("gen_" ++ sTalare n ++ "_" ++ sParti p).data.take 60).length := rfl
    rw [h]
    exact List.length_take_le 60 _
  · decide

def entryNatural : Entry := ⟨"i7", "Åsa Holm", "C", "a7", "u7", "", "", "", ""⟩

theorem resolver_contract_witness :
    resolveIid entryNatural = "i7" ∧ (genIid "A. Smith" "X").length ≤ 60 ∧
    genIid "Åsa Holm" "C" = "gen_åsa_holm_c" :=
  ⟨(resolver_contract entryNatural "A. Smith" "X").1 (by decide),
   (resolver_contract entryNatural "A. Smith" "X").2.2.1,
   (resolver_contract entryNatural "A. Smith" "X").2.2.2⟩

/-! ### Decoding model for `fetch_speech_text_from_url` -/

/-- A UTF-8 continuation byte (`0x80`-`0xBF`). -/
def utf8Cont (b : Nat) : Bool := 128 ≤ b && b ≤ 191

/-- Model of `bytes.decode("utf-8")`: validating UTF-8 decoding of a
byte list, `none` on the `UnicodeDecodeError` of an invalid sequence
(overlong forms, surrogates and out-of-range leads rejected, as in
Python). -/
def utf8Decode : List Nat → Option (List Char)
  | [] => some []
  | b :: rest =>
    if b ≤ 127 then
      (utf8Decode rest).map (fun cs => Char.ofNat b :: cs)
    else if 194 ≤ b && b ≤ 223 then
      match rest with
      | b1 :: rest1 =>
        if utf8Cont b1 then
          (utf8Decode rest1).map (fun cs =>
            Char.ofNat ((b - 192) * 64 + (b1 - 128)) :: cs)
        else none
      | [] => none
    else if 224 ≤ b && b ≤ 239 then
      match rest with
      | b1 :: b2 :: rest2 =>
        if (if b = 224 then 160 ≤ b1 && b1 ≤ 191
            else if b = 237 then 128 ≤ b1 && b1 ≤ 159
            else utf8Cont b1) && utf8Cont b2 then
          (utf8Decode rest2).map (fun cs =>
            Char.ofNat ((b - 224) * 4096 + (b1 - 128) * 64 + (b2 - 128)) :: cs)
        else none
      | _ => none
    else if 240 ≤ b && b ≤ 244 then
      match rest with
      | b1 :: b2 :: b3 :: rest3 =>
        if (if b = 240 then 144 ≤ b1 && b1 ≤ 191
            else if b = 244 then 128 ≤ b1 && b1 ≤ 143
            else utf8Cont b1) && utf8Cont b2 && utf8Cont b3 then
          (utf8Decode rest3).map (fun cs =>
            Char.ofNat ((b - 240) * 262144 + (b1 - 128) * 4096 +
              (b2 - 128) * 64 + (b3 - 128)) :: cs)
        else none
      | _ => none
    else none

/-- Model of `bytes.decode("iso-8859-1")`: each byte maps directly to
the code point of the same value; this decoding never fails. -/
def latin1Decode (bytes : List Nat) : List Char := bytes.map Char.ofNat

/-- Model of the decode-with-fallback of `fetch_speech_text_from_url`
lines 81-85 (and the identical pattern at lines 119-122): try UTF-8
first; on `UnicodeDecodeError` retry with ISO-8859-1. -/
def decodeBytes (bytes : List Nat) : List Char :=
  match utf8Decode bytes with
  | some cs => cs
  | none => latin1Decode bytes

/-- Model of `fetch_speech_text_from_url` (lines 71-100).  The network
layer is the oracle `fetchData` (`None` for a failed request; the code
also treats an empty body as a failure because `if not ...` is true for
empty bytes).  The XML parse plus `anforandetext` extraction of lines
87-94 is the oracle `parseExtract`: `Except.error msg` models an
`ET.ParseError` with message `msg`, `Except.ok (some t)` a found text,
`Except.ok none` a parsed tree without a usable `anforandetext`.
Every branch returns a plain string, as in the source, which never
lets an exception escape. -/
def fetchSpeechText (fetchData : String → Option (List Nat))
    (parseExtract : String → Except String (Option String))
    (url : String) : String :=
  if url = "" then "URL för anförande-XML saknas."
  else
    match fetchData url with
    | none => "Kunde inte hämta XML för specifikt anförande."
    | some bytes =>
      if bytes.isEmpty then "Kunde inte hämta XML för specifikt anförande."
      else
        match parseExtract ⟨decodeBytes bytes⟩ with
        | Except.error msg => "Fel vid XML-analys: " ++ msg
        | Except.ok (some t) => t
        | Except.ok none => "Anförandetext kunde inte hittas."

/-! ### Claim C5 -/

theorem speechBlocked_insertMember (db : DB) (i n p aid url : String) :
    speechBlocked (insertOrIgnoreMember db i n p) aid url =
      speechBlocked db aid url := by
  unfold speechBlocked
  rw [insertOrIgnoreMember_speeches]

/-- The network layer of the C5 counterexample: every URL yields the
single byte `0x3C`. -/
def bytesOracle : String → Option (List Nat) := fun _ => some [60]

/-- The parse layer of the C5 counterexample: parsing always raises
`ET.ParseError` with message `boom`. -/
def parseFailOracle : String → Except String (Option String) :=
  fun _ => Except.error "boom"

def entryParseFail : Entry := ⟨"", "Anna", "X", "ap1", "uP1", "", "", "", ""⟩

/-- C5 counterexample.  The claim says that when the XML tree fails to
parse the document is skipped and no record derived from it is
persisted.  In the code, `fetch_speech_text_from_url` returns the
error-message string, `populate_database` merely prints a warning
(line 201-202) and then inserts the speech row anyway: the run persists
a record whose text is the parse-error message, so the document is not
skipped. -/
theorem parse_failure_not_skipped :
    fetchSpeechText bytesOracle parseFailOracle "uP1" =
      "Fel vid XML-analys: boom" ∧
    (populateFrom (fetchSpeechText bytesOracle parseFailOracle) dbEmpty
      [entryParseFail]).added = 1 ∧
    (populateFrom (fetchSpeechText bytesOracle parseFailOracle) dbEmpty
      [entryParseFail]).db.speeches.map SpeechRow.anforandetext =
      ["Fel vid XML-analys: boom"] ∧
    ¬ (populateFrom (fetchSpeechText bytesOracle parseFailOracle) dbEmpty
      [entryParseFail]).db.speeches = [] := by
  refine ⟨?_, ?_, ?_, ?_⟩ <;> decide

/-- C5 amended: primary UTF-8 decoding is attempted first and used when
it succeeds; on a `UnicodeDecodeError` the ISO-8859-1 decoding is used
instead (it never fails, so decoding as a whole never fails); a parse
failure is caught and returned as an error-message string rather than
an uncaught crash; but the document is not skipped — for an entry that
passes the guards, the speech row is persisted with whatever string the
text fetch produced, error messages included. -/
theorem decode_fallback_and_persist (bytes : List Nat) (cs : List Char)
    (fD : String → Option (List Nat))
    (pX : String → Except String (Option String))
    (url msg : String) (f : String → String) (db : DB) (e : Entry) :
    (utf8Decode bytes = some cs → decodeBytes bytes = cs) ∧
    (utf8Decode bytes = none → decodeBytes bytes = latin1Decode bytes) ∧
    (¬ url = "" → ∀ bs, fD url = some bs → bs.isEmpty = false →
      pX ⟨decodeBytes bs⟩ = Except.error msg →
      fetchSpeechText fD pX url = "Fel vid XML-analys: " ++ msg) ∧
    (validEntry e = true → speechExists db e.anforande_id = false →
      speechBlocked db e.anforande_id e.anforande_url_xml = false →
      (processEntry f db e).db.speeches = db.speeches ++
        [speechRowOf e (resolveIid e) (f e.anforande_url_xml)]) := by
  refine ⟨?_, ?_, ?_, ?_⟩
  · intro h
    unfold decodeBytes
    rw [h]
  · intro h
    unfold decodeBytes
    rw [h]
  · intro hu bs hbs hne hpx
    unfold fetchSpeechText
    rw [if_neg hu, hbs]
    simp only [hne, Bool.false_eq_true, if_false, hpx]
  · intro hv hx hb
    have hx1 : speechExists (insertOrIgnoreMember db (resolveIid e) e.talare
        e.parti) e.anforande_id = false := by
      rw [speechExists_insertMember]
      exact hx
    have hb1 : speechBlocked (insertOrIgnoreMember db (resolveIid e) e.talare
        e.parti) e.anforande_id e.anforande_url_xml = false := by
      rw [speechBlocked_insertMember]
      exact hb
    unfold processEntry
    simp only [hv, if_true, hx1, Bool.false_eq_true, if_false]
    unfold insertSpeech speechRowOf
    simp only [speechRowOf] at hb1
    rw [if_neg (by simp [hb1])]
    simp [insertOrIgnoreMember_speeches, speechRowOf]

def entryDummy : Entry := ⟨"", "D", "X", "ad9", "ud9", "", "", "", ""⟩

theorem decode_fallback_witness :
    decodeBytes [195, 169] = ['é'] ∧ decodeBytes [255] = ['ÿ'] :=
  ⟨(decode_fallback_and_persist [195, 169] ['é'] bytesOracle parseFailOracle
      "u" "m" (fun _ => "") dbEmpty entryDummy).1 (by decide),
   by
    have h := (decode_fallback_and_persist [255] [] bytesOracle parseFailOracle
      "u" "m" (fun _ => "") dbEmpty entryDummy).2.1 (by decide)
    rw [h]
    decide⟩

/-! ### Model of `fr_build_db.py` -/

/-- One input file of `fr_build_db.main`, as seen by
`process_speaker_data`: either the parse (or read) fails, or the root
lacks the `name` attribute, or it yields a deputy name and the raw text
of each `speech` child element. -/
inductive FrDoc where
  | malformed : FrDoc
  | missingName : List String → FrDoc
  | good : String → List String → FrDoc
deriving DecidableEq

/-- A row of the French `speeches` table
(`iid INTEGER PRIMARY KEY, name, party, speech_text`). -/
structure FrRow where
  iid : Nat
  name : String
  party : String
  speech_text : String
deriving DecidableEq

/-- Model of the speech-insert loop of `process_speaker_data` (lines
44-66): skip empty (stripped) texts, insert each speech with the same
`member_id`; `none` models the `sqlite3.Error` branch — the plain
`INSERT` hits the `iid INTEGER PRIMARY KEY` constraint as soon as a row
with that id already exists in the (uncommitted) working state. -/
def frInsertLoop (pid : Nat) (name : String) :
    List FrRow → List String → Option (List FrRow)
  | work, [] => some work
  | work, t :: ts =>
    let txt := pyStrip t
    if txt = "" then frInsertLoop pid name work ts
    else if work.any (fun r => r.iid = pid) then none
    else frInsertLoop pid name (work ++ [⟨pid, name, "", txt⟩]) ts

/-- Model of `process_speaker_data` of `fr_build_db.py`: parse and
attribute failures skip the file; the inserts run in one transaction
that is committed at the end of the file, so the `db_connection.rollback()`
of the error branch restores the store to its pre-file state and the
rest of the file is abandoned (`return False`). -/
def frProcessFile (db : List FrRow) (pid : Nat) : FrDoc → List FrRow × Bool
  | FrDoc.malformed => (db, false)
  | FrDoc.missingName _ => (db, false)
  | FrDoc.good name ts =>
    match frInsertLoop pid name db ts with
    | none => (db, false)
    | some w => (w, true)

/-- The summary of a `fr_build_db.main` run: final store, the
processed/skipped counters, and the next value of `person_id_counter`
(which is incremented only for successfully processed files). -/
structure FrRunResult where
  db : List FrRow
  processedFiles : Nat
  skippedFiles : Nat
  nextPid : Nat
deriving DecidableEq

/-- Model of the file loop of `fr_build_db.main` (lines 155-161) over
the sorted, name-filtered file list. -/
def frRun (db : List FrRow) (pid : Nat) : List FrDoc → FrRunResult
  | [] => ⟨db, 0, 0, pid⟩
  | d :: ds =>
    let step := frProcessFile db pid d
    if step.2 then
      let r := frRun step.1 (pid + 1) ds
      ⟨r.db, 1 + r.processedFiles, r.skippedFiles, r.nextPid⟩
    else
      let r := frRun step.1 pid ds
      ⟨r.db, r.processedFiles, 1 + r.skippedFiles, r.nextPid⟩

/-! ### Claim C6 -/

/-- The C6 counterexample batch: a two-speech file for deputy A
followed by a one-speech file for deputy B. -/
def frDocsC6 : List FrDoc :=
  [FrDoc.good "A" ["s1", "s2"], FrDoc.good "B" ["s3"]]

/-- C6 counterexample.  In `fr_build_db.py` every speech of a file is
inserted with the same `member_id` into a table whose `iid` is the
`INTEGER PRIMARY KEY`, inside one per-file transaction.  The insert of
`s2` therefore fails, and the claim — rollback of that single record
only, processing continuing with the next record — would leave `s1` in
the store.  The code instead rolls back the whole file (the already
inserted `s1` included) and skips the rest of the file; only the next
file's `s3` survives. -/
theorem store_failure_rollback_counterexample :
    frRun [] 1 frDocsC6 = ⟨[⟨1, "B", "", "s3"⟩], 1, 1, 2⟩ ∧
    (frRun [] 1 frDocsC6).db.all (fun r => !(r.speech_text = "s1")) = true := by
  refine ⟨?_, ?_⟩ <;> decide

/-- C6 amended: a store-write failure while inserting one of a file's
records rolls back every uncommitted record of that file (the store
returns to its pre-file state) and the rest of that file is skipped,
while processing continues with the next file; one malformed document
among N only increments the skipped counter and has no effect on the
ingestion of the other N−1; and the run completes with a summary that
accounts for every document (processed + skipped = N). -/
theorem partial_failure_isolation (db : List FrRow) (pid : Nat)
    (name : String) (ts : List String) (docs : List FrDoc) :
    (frInsertLoop pid name db ts = none →
      frProcessFile db pid (FrDoc.good name ts) = (db, false)) ∧
    frRun db pid (FrDoc.malformed :: docs) =
      ⟨(frRun db pid docs).db, (frRun db pid docs).processedFiles,
        1 + (frRun db pid docs).skippedFiles, (frRun db pid docs).nextPid⟩ ∧
    (frRun db pid docs).processedFiles + (frRun db pid docs).skippedFiles =
      docs.length := by
  refine ⟨?_, ?_, ?_⟩
  · intro h
    simp only [frProcessFile, h]
  · rfl
  · induction docs generalizing db pid with
    | nil => rfl
    | cons d ds ih =>
      show (frRun db pid (d :: ds)).processedFiles +
        (frRun db pid (d :: ds)).skippedFiles = ds.length + 1
      by_cases h : (frProcessFile db pid d).2 = true
      · have hr : frRun db pid (d :: ds) =
            ⟨(frRun (frProcessFile db pid d).1 (pid + 1) ds).db,
              1 + (frRun (frProcessFile db pid d).1 (pid + 1) ds).processedFiles,
              (frRun (frProcessFile db pid d).1 (pid + 1) ds).skippedFiles,
              (frRun (frProcessFile db pid d).1 (pid + 1) ds).nextPid⟩ := by
          simp only [frRun, h, if_true]
        rw [hr]
        have := ih (frProcessFile db pid d).1 (pid + 1)
        simp only [] at this ⊢
        omega
      · have hr : frRun db pid (d :: ds) =
            ⟨(frRun (frProcessFile db pid d).1 pid ds).db,
              (frRun (frProcessFile db pid d).1 pid ds).processedFiles,
              1 + (frRun (frProcessFile db pid d).1 pid ds).skippedFiles,
              (frRun (frProcessFile db pid d).1 pid ds).nextPid⟩ := by
          simp only [frRun, h, if_false, Bool.false_eq_true]
        rw [hr]
        have := ih (frProcessFile db pid d).1 pid
        simp only [] at this ⊢
        omega

theorem partial_failure_isolation_witness :
    frProcessFile [⟨4, "A", "", "s0"⟩] 4 (FrDoc.good "A" ["s1"]) =
      ([⟨4, "A", "", "s0"⟩], false) :=
  (partial_failure_isolation [⟨4, "A", "", "s0"⟩] 4 "A" ["s1"] []).1 (by decide)

/-! ### Model of `write_deputy_xml` ordering in `fr_deputy_speeches.py` -/

/-- Lexicographic less-or-equal on code-point lists: the comparison
Python uses for `str` keys in `list.sort`. -/
def charListLe : List Char → List Char → Bool
  | [], _ => true
  | _ :: _, [] => false
  | a :: as, b :: bs =>
    if a.toNat < b.toNat then true
    else if b.toNat < a.toNat then false
    else charListLe as bs

/-- Python string comparison `a <= b` (lexicographic by code point). -/
def dateLe (a b : String) : Bool := charListLe a.data b.data

theorem charListLe_refl : ∀ a : List Char, charListLe a a = true
  | [] => rfl
  | a :: as => by
    simp only [charListLe, lt_irrefl, if_false]
    exact charListLe_refl as

theorem charListLe_total : ∀ a b : List Char,
    charListLe a b = true ∨ charListLe b a = true
  | [], _ => Or.inl rfl
  | _ :: _, [] => Or.inr rfl
  | a :: as, b :: bs => by
    by_cases h1 : a.toNat < b.toNat
    · left
      simp [charListLe, h1]
    · by_cases h2 : b.toNat < a.toNat
      · right
        simp [charListLe, h2]
      · rcases charListLe_total as bs with h | h
        · left
          simp [charListLe, h1, h2, h]
        · right
          simp [charListLe, h1, h2, h]

theorem charListLe_trans : ∀ {a b c : List Char}, charListLe a b = true →
    charListLe b c = true → charListLe a c = true
  | [], _, _, _, _ => rfl
  | _ :: _, [], _, hab, _ => by simp [charListLe] at hab
  | _ :: _, _ :: _, [], _, hbc => by simp [charListLe] at hbc
  | a :: as, b :: bs, c :: cs, hab, hbc => by
    simp only [charListLe] at hab hbc ⊢
    by_cases hac : a.toNat < c.toNat
    · rw [if_pos hac]
    · by_cases h1 : a.toNat < b.toNat
      · rw [if_pos h1] at hab
        by_cases h2 : b.toNat < c.toNat
        · omega
        · rw [if_neg h2] at hbc
          by_cases h3 : c.toNat < b.toNat
          · rw [if_pos h3] at hbc
            exact absurd hbc (by simp)
          · omega
      · rw [if_neg h1] at hab
        by_cases h4 : b.toNat < a.toNat
        · rw [if_pos h4] at hab
          exact absurd hab (by simp)
        · rw [if_neg h4] at hab
          by_cases h2 : b.toNat < c.toNat
          · omega
          · rw [if_neg h2] at hbc
            by_cases h3 : c.toNat < b.toNat
            · rw [if_pos h3] at hbc
              exact absurd hbc (by simp)
            · rw [if_neg h3] at hbc
              have h5 : ¬ c.toNat < a.toNat := by omega
              rw [if_neg hac, if_neg h5]
              exact charListLe_trans hab hbc

theorem dateLe_refl (a : String) : dateLe a a = true := charListLe_refl a.data

theorem dateLe_total (a b : String) : dateLe a b = true ∨ dateLe b a = true :=
  charListLe_total a.data b.data

theorem dateLe_trans {a b c : String} (h1 : dateLe a b = true)
    (h2 : dateLe b c = true) : dateLe a c = true := charListLe_trans h1 h2

theorem dateLe_of_not {a b : String} (h : ¬ dateLe a b = true) :
    dateLe b a = true := (dateLe_total a b).resolve_left h

/-- One entry of the per-deputy speech list built in `main` of
`fr_deputy_speeches.py` (`{'title':..., 'date':..., 'time':...,
'text':...}`). -/
structure DeputySpeech where
  title : String
  date : String
  time : String
  text : String
deriving DecidableEq

/-- Stable insertion of a speech in front of the first element whose
date is not smaller. -/
def stableInsertByDate (x : DeputySpeech) :
    List DeputySpeech → List DeputySpeech
  | [] => [x]
  | y :: ys =>
    if dateLe x.date y.date then x :: y :: ys
    else y :: stableInsertByDate x ys

/-- Model of `speeches.sort(key=lambda x: x["date"])` in
`write_deputy_xml` (line 175): Python's sort is a stable ascending sort
by the `date` key, and a stable sort by a key over a total order is
uniquely determined by sortedness plus stability, so stable insertion
sort computes the same list the source produces. -/
def sortSpeechesByDate (l : List DeputySpeech) : List DeputySpeech :=
  l.foldr stableInsertByDate []

/-- The output list of `write_deputy_xml` is date-sorted ascending. -/
def dateSorted (l : List DeputySpeech) : Prop :=
  List.Pairwise (fun a b => dateLe a.date b.date = true) l

theorem stableInsert_perm (x : DeputySpeech) (l : List DeputySpeech) :
    (stableInsertByDate x l).Perm (x :: l) := by
  induction l with
  | nil => exact List.Perm.refl [x]
  | cons y ys ih =>
    by_cases h : dateLe x.date y.date = true
    · rw [stableInsertByDate, if_pos h]
    · rw [stableInsertByDate, if_neg h]
      exact List.Perm.trans (List.Perm.cons y ih) (List.Perm.swap x y ys)

theorem stableInsert_sorted (x : DeputySpeech) (l : List DeputySpeech)
    (h : dateSorted l) : dateSorted (stableInsertByDate x l) := by
  induction l with
  | nil =>
    simp [stableInsertByDate, dateSorted]
  | cons y ys ih =>
    rcases List.pairwise_cons.mp h with ⟨hy, hys⟩
    by_cases hle : dateLe x.date y.date = true
    · rw [stableInsertByDate, if_pos hle]
      refine List.Pairwise.cons ?_ h
      intro z hz
      rcases List.mem_cons.mp hz with rfl | hz2
      · exact hle
      · exact dateLe_trans hle (hy z hz2)
    · rw [stableInsertByDate, if_neg hle]
      refine List.Pairwise.cons ?_ (ih hys)
      intro z hz
      have hz3 := (stableInsert_perm x ys).mem_iff.mp hz
      rcases List.mem_cons.mp hz3 with rfl | hz4
      · exact dateLe_of_not hle
      · exact hy z hz4

theorem stableInsert_filter (x : DeputySpeech) (l : List DeputySpeech)
    (d : String) :
    (stableInsertByDate x l).filter (fun s => s.date = d) =
      if x.date = d then x :: l.filter (fun s => s.date = d)
      else l.filter (fun s => s.date = d) := by
  induction l with
  | nil =>
    by_cases h : x.date = d <;> simp [stableInsertByDate, h]
  | cons y ys ih =>
    by_cases hle : dateLe x.date y.date = true
    · rw [stableInsertByDate, if_pos hle]
      by_cases hx : x.date = d <;> simp [List.filter_cons, hx]
    · rw [stableInsertByDate, if_neg hle]
      have hx : ¬ x.date = d ∨ ¬ y.date = d := by
        by_cases hxd : x.date = d
        · right
          intro hyd
          exact hle (hxd.trans hyd.symm ▸ dateLe_refl x.date)
        · left
          exact hxd
      by_cases hyd : y.date = d
      · have hxd : ¬ x.date = d := by
          rcases hx with h | h
          · exact h
          · exact absurd hyd h
        simp [List.filter_cons, hyd, hxd, ih]
      · by_cases hxd : x.date = d <;> simp [List.filter_cons, hyd, hxd, ih]

/-! ### Claim C8 -/

def speechTupleB : DeputySpeech := ⟨"B", "2021-01-01", "", "tb"⟩

def speechTupleA : DeputySpeech := ⟨"A", "2021-01-01", "", "ta"⟩

/-- C8 counterexample.  `write_deputy_xml` sorts only by date
(`speeches.sort(key=lambda x: x["date"])`), so two fragments with the
same date stay in encounter order: with titles `B` then `A` the output
keeps `B` before `A`, which is not the title order the claim requires
for ties; and reversing the input (file-processing) order reverses the
output, so the tie order is not independent of processing order
either. -/
theorem aggregator_tie_order_counterexample :
    sortSpeechesByDate [speechTupleB, speechTupleA] =
      [speechTupleB, speechTupleA] ∧
    speechTupleB.date = speechTupleA.date ∧
    ¬ charListLe speechTupleB.title.data speechTupleA.title.data = true ∧
    ¬ sortSpeechesByDate [speechTupleB, speechTupleA] =
      sortSpeechesByDate [speechTupleA, speechTupleB] := by
  refine ⟨?_, ?_, ?_, ?_⟩ <;> decide

/-- C8 amended: in each speaker's output file the fragments are sorted
by date ascending (a permutation of the collected fragments), and
fragments with equal dates keep their relative encounter order (the
order in which the input files were processed) — the sort is stable and
uses no secondary key, so ties are not ordered by topic/title. -/
theorem aggregator_date_ordering (l : List DeputySpeech) (d : String) :
    dateSorted (sortSpeechesByDate l) ∧
    (sortSpeechesByDate l).Perm l ∧
    (sortSpeechesByDate l).filter (fun s => s.date = d) =
      l.filter (fun s => s.date = d) := by
  refine ⟨?_, ?_, ?_⟩
  · induction l with
    | nil => exact List.Pairwise.nil
    | cons a l ih => exact stableInsert_sorted a (sortSpeechesByDate l) ih
  · induction l with
    | nil => exact List.Perm.refl []
    | cons a l ih =>
      exact ((stableInsert_perm a (sortSpeechesByDate l)).trans
        (List.Perm.cons a ih))
  · induction l with
    | nil => rfl
    | cons a l ih =>
      show (stableInsertByDate a (sortSpeechesByDate l)).filter
          (fun s => s.date = d) = (a :: l).filter (fun s => s.date = d)
      rw [stableInsert_filter, ih]
      by_cases h : a.date = d <;> simp [List.filter_cons, h]

/-! ### Model of `split_hansard` in `uk_member_speeches.py` -/

/-- Model of `sanitise`: `re.sub(r"[^A-Za-z0-9_\-]", "_",
t.strip().replace(" ", "_"))`. -/
def sanitiseName (t : String) : String :=
  ⟨((pyStrip t).data.map (fun c => if c = ' ' then '_' else c)).map
    (fun c => if c.isAlphanum || c = '_' || c = '-' then c else '_')⟩

/-- Model of `mid = pid.split("/")[-1] if "/" in pid else
(pid or "unknown")`. -/
def memberIdOf (pid : String) : String :=
  if pid.data.contains '/' then
    ⟨(pid.data.reverse.takeWhile (fun c => !(c = '/'))).reverse⟩
  else if pid = "" then "unknown" else pid

/-- The event stream `split_hansard` consumes from `ET.iterparse` over
all input files: each completed `speech` element carries its
`person_id`, `speakername` and serialized XML; a malformed file raises
`ET.ParseError` mid-stream, which nothing in the function catches. -/
inductive HansardEv where
  | speech : String → String → String → HansardEv
  | parseError : HansardEv
deriving DecidableEq

/-- One pooled output handle of `split_hansard`: its key in the
`handles` dictionary, everything written to it so far, and whether
`close()` has run. -/
structure SinkState where
  key : String
  content : String
  closed : Bool
deriving DecidableEq

/-- The XML header `h()` writes when it creates a handle. -/
def sinkHeader (mid mname : String) : String :=
  "<?xml version=\"1.0\" encoding=\"utf-8\"?>\n<speeches member_id=\"" ++ mid
    ++ "\" member_name=\"" ++ mname ++ "\">\n"

/-- Model of `h(mid, mname).write(chunk)`: reuse the pooled handle for
`key` when it exists, otherwise create it lazily with the header
written first. -/
def writeToSink (sinks : List SinkState) (key header chunk : String) :
    List SinkState :=
  if sinks.any (fun s => s.key = key) then
    sinks.map (fun s =>
      if s.key = key then ⟨s.key, s.content ++ chunk, s.closed⟩ else s)
  else sinks ++ [⟨key, header ++ chunk, false⟩]

/-- The final loop of `split_hansard`: write the `</speeches>` footer
and close every pooled handle. -/
def closeAllSinks (sinks : List SinkState) : List SinkState :=
  sinks.map (fun s => ⟨s.key, s.content ++ "</speeches>\n", true⟩)

/-- Model of `split_hansard`: consume the event stream; a
`ET.ParseError` propagates (`Except.error` carries the pool as the
exception leaves it — no handle gets closed); on normal completion
every handle receives its footer and is closed. -/
def splitHansard (sinks : List SinkState) :
    List HansardEv → Except (List SinkState) (List SinkState)
  | [] => Except.ok (closeAllSinks sinks)
  | HansardEv.parseError :: _ => Except.error sinks
  | HansardEv.speech pid name xml :: evs =>
    let mid := memberIdOf pid
    let mname := sanitiseName name
    splitHansard
      (writeToSink sinks (mid ++ "_" ++ mname) (sinkHeader mid mname)
        (xml ++ "\n")) evs

theorem splitHansard_ok_closed : ∀ (evs : List HansardEv)
    (sinks out : List SinkState),
    splitHansard sinks evs = Except.ok out → ∀ s ∈ out, s.closed = true
  | [], sinks, out, hok => by
    have h : closeAllSinks sinks = out := by
      injection hok
    subst h
    intro s hs
    simp only [closeAllSinks, List.mem_map] at hs
    obtain ⟨t, ht, rfl⟩ := hs
    rfl
  | HansardEv.parseError :: _, _, _, hok => by
    exact absurd hok (by simp [splitHansard])
  | HansardEv.speech pid name xml :: evs, sinks, out, hok =>
    splitHansard_ok_closed evs _ out hok

/-! ### Claim C9 -/

def hansardEvsBad : List HansardEv :=
  [HansardEv.speech "uk.org.publicwhip/person/10001" "Alice Smith"
    "<speech>hi</speech>",
   HansardEv.parseError]

/-- Whether the run was aborted by a propagating exception. -/
def splitHansardAborted : Except (List SinkState) (List SinkState) → Bool
  | Except.error _ => true
  | Except.ok _ => false

/-- The pool of handles as the run leaves it (normal or aborted). -/
def splitHansardPool : Except (List SinkState) (List SinkState) →
    List SinkState
  | Except.error sinks => sinks
  | Except.ok sinks => sinks

/-- C9 counterexample.  The claim says every sink is flushed and closed
when the run ends whether it succeeds or an error occurs.
`split_hansard` has no try/finally: its closing loop runs only after
the file loop completes, so when a malformed file makes `ET.iterparse`
raise, the exception propagates and the sink created for the earlier
speech is left open and partially written — no `</speeches>` footer,
`closed = false`. -/
theorem sink_left_open_counterexample :
    splitHansardAborted (splitHansard [] hansardEvsBad) = true ∧
    splitHansardPool (splitHansard [] hansardEvsBad) =
      [⟨"10001_Alice_Smith",
        sinkHeader "10001" "Alice_Smith" ++ "<speech>hi</speech>\n",
        false⟩] := by
  refine ⟨?_, ?_⟩ <;> decide

/-- C9 amended: a per-speaker sink is created lazily on the speaker's
first fragment (header written at creation) and reused for every later
fragment with the same key across all input files of the run; when the
run completes successfully every sink in the pool has been closed with
its footer written; but when an error occurs mid-run the closing loop
never executes, so sinks are left open and partially written. -/
theorem sink_pool_lifecycle (sinks : List SinkState)
    (key header chunk : String) (evs : List HansardEv)
    (out : List SinkState) :
    (sinks.any (fun s => s.key = key) = true →
      (writeToSink sinks key header chunk).map SinkState.key =
        sinks.map SinkState.key) ∧
    (sinks.any (fun s => s.key = key) = false →
      writeToSink sinks key header chunk =
        sinks ++ [⟨key, header ++ chunk, false⟩]) ∧
    (splitHansard sinks evs = Except.ok out → ∀ s ∈ out, s.closed = true) := by
  refine ⟨?_, ?_, splitHansard_ok_closed evs sinks out⟩
  · intro h
    rw [writeToSink, if_pos h, List.map_map]
    refine List.map_congr_left ?_
    intro s _
    by_cases hk : s.key = key <;> simp [Function.comp, hk]
  · intro h
    rw [writeToSink, if_neg (by simp [h])]

theorem sink_pool_lifecycle_witness :
    writeToSink [] "k1" "H" "c1" = [⟨"k1", "Hc1", false⟩] ∧
    SinkState.closed ⟨"k1", "Hc1</speeches>\n", true⟩ = true := by
  constructor
  · have h := (sink_pool_lifecycle [] "k1" "H" "c1" [] []).2.1 (by decide)
    rw [h]
    decide
  · have h3 := (sink_pool_lifecycle [⟨"k1", "Hc1", false⟩] "k" "h" "c" []
      (closeAllSinks [⟨"k1", "Hc1", false⟩])).2.2 rfl
    exact h3 ⟨"k1", "Hc1</speeches>\n", true⟩ (by decide)

/-! ### Model of `uk_build_db.py` -/

/-- One input file of `uk_build_db.main`, as seen by
`process_speaker_data`: parse/read failure, missing or non-integer root
attributes, or a member id, member name and the per-paragraph texts of
the `speech` elements. -/
inductive UkDoc where
  | malformed : UkDoc
  | missingAttrs : UkDoc
  | good : Nat → String → List String → UkDoc
deriving DecidableEq

/-- A row of the UK `speeches` table
(`iid INTEGER PRIMARY KEY, name, party, speech_text`). -/
structure UkRow where
  iid : Nat
  name : String
  party : String
  speech_text : String
deriving DecidableEq

/-- Model of the text assembly of `process_speaker_data` lines 48-57:
strip each paragraph, keep the non-empty ones, join with single spaces
and strip the result. -/
def ukFullText (paragraphs : List String) : String :=
  pyStrip (String.intercalate " "
    ((paragraphs.map pyStrip).filter (fun s => !(s = ""))))

/-- Model of `process_speaker_data` of `uk_build_db.py`: parse and
attribute failures return `False`; otherwise one row is inserted with
`INSERT OR IGNORE` keyed on the `iid INTEGER PRIMARY KEY` — when a row
with that member id already exists the statement is ignored, the store
is unchanged, and the function still reports success. -/
def ukProcessFile (db : List UkRow) : UkDoc → List UkRow × Bool
  | UkDoc.malformed => (db, false)
  | UkDoc.missingAttrs => (db, false)
  | UkDoc.good mid mname paras =>
    if db.any (fun r => r.iid = mid) then (db, true)
    else (db ++ [⟨mid, mname, "", ukFullText paras⟩], true)

/-- The summary of a `uk_build_db.main` run: final store and the
`processed_files_count` / `skipped_files_count` counters. -/
structure UkRunResult where
  db : List UkRow
  processedFiles : Nat
  skippedFiles : Nat
deriving DecidableEq

/-- Model of the file loop of `uk_build_db.main` (lines 136-147) over
the name-filtered file list. -/
def ukRun (db : List UkRow) : List UkDoc → UkRunResult
  | [] => ⟨db, 0, 0⟩
  | d :: ds =>
    let step := ukProcessFile db d
    let r := ukRun step.1 ds
    if step.2 then ⟨r.db, 1 + r.processedFiles, r.skippedFiles⟩
    else ⟨r.db, r.processedFiles, 1 + r.skippedFiles⟩

/-! ### Claim C10 -/

theorem ukProcessFile_nodup (db : List UkRow) (d : UkDoc)
    (h : (db.map UkRow.iid).Nodup) :
    ((ukProcessFile db d).1.map UkRow.iid).Nodup := by
  cases d with
  | malformed => exact h
  | missingAttrs => exact h
  | good mid mname paras =>
    by_cases hx : db.any (fun r => r.iid = mid) = true
    · simpa [ukProcessFile, hx] using h
    · have hni : mid ∉ db.map UkRow.iid := by
        intro hmem
        apply hx
        simp only [List.mem_map] at hmem
        obtain ⟨r, hr, hid⟩ := hmem
        simp only [List.any_eq_true]
        exact ⟨r, hr, by simp [hid]⟩
      rw [ukProcessFile, if_neg hx]
      simp [List.nodup_append, h, hni]

/-- C10: in the UK database builder the speeches relation holds at most
one row per member id (the `iid` primary key stays duplicate-free
across a run); when a file carrying an already-stored `member_id` is
processed, the `INSERT OR IGNORE` leaves the store entirely unchanged
— that file's speech text is silently discarded — while the file is
still reported as successfully processed and counted in
`processed_files_count`. -/
theorem uk_one_row_per_member (db : List UkRow) (docs : List UkDoc)
    (mid : Nat) (mname : String) (paras : List String) :
    ((db.map UkRow.iid).Nodup → ((ukRun db docs).db.map UkRow.iid).Nodup) ∧
    (db.any (fun r => r.iid = mid) = true →
      ukProcessFile db (UkDoc.good mid mname paras) = (db, true)) ∧
    (ukRun db (UkDoc.good mid mname paras :: docs)).processedFiles =
      1 + (ukRun (ukProcessFile db (UkDoc.good mid mname paras)).1
        docs).processedFiles := by
  refine ⟨?_, ?_, ?_⟩
  · intro h
    induction docs generalizing db with
    | nil => exact h
    | cons d ds ih =>
      have hdb : (ukRun db (d :: ds)).db =
          (ukRun (ukProcessFile db d).1 ds).db := by
        by_cases h2 : (ukProcessFile db d).2 = true <;> simp [ukRun, h2]
      rw [hdb]
      exact ih (ukProcessFile db d).1 (ukProcessFile_nodup db d h)
  · intro h
    rw [ukProcessFile, if_pos h]
  · have hok : (ukProcessFile db (UkDoc.good mid mname paras)).2 = true := by
      by_cases h : db.any (fun r => r.iid = mid) = true <;>
        simp [ukProcessFile, h]
    show (if (ukProcessFile db (UkDoc.good mid mname paras)).2 then
        (⟨(ukRun (ukProcessFile db (UkDoc.good mid mname paras)).1 docs).db,
          1 + (ukRun (ukProcessFile db (UkDoc.good mid mname paras)).1
            docs).processedFiles,
          (ukRun (ukProcessFile db (UkDoc.good mid mname paras)).1
            docs).skippedFiles⟩ : UkRunResult)
      else
        ⟨(ukRun (ukProcessFile db (UkDoc.good mid mname paras)).1 docs).db,
          (ukRun (ukProcessFile db (UkDoc.good mid mname paras)).1
            docs).processedFiles,
          1 + (ukRun (ukProcessFile db (UkDoc.good mid mname paras)).1
            docs).skippedFiles⟩).processedFiles =
      1 + (ukRun (ukProcessFile db (UkDoc.good mid mname paras)).1
        docs).processedFiles
    rw [if_pos hok]

def ukDbExisting : List UkRow := [⟨10001, "Alice", "", "first text"⟩]

theorem uk_one_row_per_member_witness :
    ukProcessFile ukDbExisting (UkDoc.good 10001 "Alice" ["second text"]) =
      (ukDbExisting, true) :=
  (uk_one_row_per_member ukDbExisting [] 10001 "Alice" ["second text"]).2.1
    (by decide)
